import Mathlib

set_option maxHeartbeats 1000000

/-!
Shallow embedding of the Material-Information-Searcher RSS aggregation
pipeline (src/scripts/fetch-rss-new.js and src/scripts/fetch-rss-optimized.js)
together with theorems settling the specification claims.

Strings are modelled by Lean String; JavaScript toLowerCase is modelled
character-wise (the configured keywords are ASCII); String.prototype.includes
is modelled by a contiguous-sublist test; JavaScript Date timestamps are Int
milliseconds; JavaScript numbers appearing in score arithmetic are modelled
exactly by Rat (the constants 0.5 and 100 involved are exact in both models);
network effects are modelled by an oracle assigning each attempt index its
outcome.
-/

namespace LiMat

/-- Character-wise lowercasing, modelling JavaScript toLowerCase on the ASCII
keyword data used by this repository. -/
def lowerStr (s : String) : String := String.mk (s.data.map Char.toLower)

/-- Contiguous substring test on character lists: true when sub occurs
contiguously inside the second argument. -/
def hasSub (sub : List Char) : List Char → Bool
  | [] => sub.isEmpty
  | c :: t => sub.isPrefixOf (c :: t) || hasSub sub t

/-- Models JavaScript s.includes(w). -/
def containsStr (s w : String) : Bool := hasSub w.data s.data

/-- The article record of both scripts.  date is the millisecond timestamp of
the parsed publish date; relevanceScore and finalScore are the fields filled
in by the categorization and ranking stages of the keyword edition (0 before
those stages run). -/
structure Article where
  title : String
  link : String
  date : Int
  category : String
  description : String
  summary : String
  relevanceScore : Nat
  finalScore : Rat
  deriving Repr, DecidableEq

/-- One category's keyword configuration (include and exclude lists). -/
structure Keywords where
  incl : List String
  excl : List String
  deriving Repr, DecidableEq

/-- Keyword configuration of the 材料创新 category. -/
def materialKeywords : Keywords :=
  { incl := ["aluminum", "aluminium", "steel", "alloy", "metal", "titanium",
             "magnesium", "lightweight metal", "automotive metal",
             "carbon fiber", "carbon fibre", "composite", "plastic",
             "polymer", "automotive plastic", "thermoplastic", "resin",
             "fiber glass", "fiberglass"],
    excl := ["semiconductor", "chip", "processor", "cpu", "gpu"] }

/-- Keyword configuration of the 汽车防腐 category. -/
def corrosionKeywords : Keywords :=
  { incl := ["corrosion", "anti-corrosion", "coating", "paint",
             "surface treatment", "rust", "galvaniz", "cathodic protection",
             "automotive coating"],
    excl := [] }

/-- Keyword configuration of the 车内健康 category. -/
def healthKeywords : Keywords :=
  { incl := ["formaldehyde", "voc", "volatile organic", "odor", "odour",
             "low-odor", "interior material", "cabin air", "air quality",
             "low-emission", "indoor air", "emission", "toxic", "health",
             "safety", "cleanroom", "antimicrobial", "antibacterial",
             "hypoallergenic", "eco-friendly", "non-toxic", "green material",
             "sustainable interior", "bio-based", "natural fiber",
             "recycled fabric", "breathable", "ventilation"],
    excl := [] }

/-- CATEGORY_KEYWORDS of src/scripts/fetch-rss-new.js (keyword edition),
as an association list preserving the configuration (object key) order. -/
def CATEGORY_KEYWORDS : List (String × Keywords) :=
  [("材料创新", materialKeywords),
   ("汽车防腐", corrosionKeywords),
   ("车内健康", healthKeywords)]

/-- Object.keys(CATEGORY_KEYWORDS): the configured category names in
configuration order. -/
def categoryNames : List String := CATEGORY_KEYWORDS.map (fun p => p.1)

/-- calculateRelevanceScore of fetch-rss-new.js: search text is the lowercased
title ++ " " ++ description; any exclude keyword occurring as a substring
vetoes the category (score 0); otherwise each include keyword occurring in the
search text adds 1 point, plus 2 extra points when it also occurs in the
lowercased title; the score is min(100, matchCount * 10). -/
def calculateRelevanceScore (article : Article) (category : String) : Nat :=
  match CATEGORY_KEYWORDS.find? (fun p => p.1 == category) with
  | none => 0
  | some p =>
    let searchText := lowerStr (article.title ++ " " ++ article.description)
    if p.2.excl.any (fun w => containsStr searchText (lowerStr w)) then 0
    else
      let matchCount := p.2.incl.foldl (fun acc w =>
        if containsStr searchText (lowerStr w) then
          acc + 1 + (if containsStr (lowerStr article.title) (lowerStr w) then 2 else 0)
        else acc) 0
      min 100 (matchCount * 10)

/-- Reference relevance score transcribed from the specification wording of
section 4.4: exclude keyword in the lowercased combined text gives 0;
otherwise the score is min(100, 10 x P) where P gives each include keyword
occurring in the combined text 1 point plus 2 extra points when it also
occurs in the lowercased title. -/
def specRelevanceScore (article : Article) (kws : Keywords) : Nat :=
  let text := lowerStr (article.title ++ " " ++ article.description)
  if kws.excl.any (fun w => containsStr text w) then 0
  else
    min 100 (10 * (kws.incl.map (fun w =>
      if containsStr text w then
        1 + (if containsStr (lowerStr article.title) w then 2 else 0)
      else 0)).sum)

/-- assignCategory of fetch-rss-new.js: fold over the configured categories,
replacing the current best only on a strictly greater score; initial best is
(null, 0). -/
def assignCategory (article : Article) : Option String × Nat :=
  categoryNames.foldl (fun best category =>
    let score := calculateRelevanceScore article category
    if score > best.2 then (some category, score) else best) (none, 0)

/-- calculateFinalScore of fetch-rss-new.js: timeScore is the position of the
article timestamp inside the [minDate, maxDate] range scaled to 0..100 when
the range is positive, otherwise 50; finalScore blends relevance and time
half-and-half. -/
def calculateFinalScore (article : Article) (maxDate minDate : Int) : Rat :=
  let articleTime : Int := article.date
  let timeRange : Int := maxDate - minDate
  let timeScore : Rat :=
    if 0 < timeRange then ((articleTime : Rat) - (minDate : Rat)) / (timeRange : Rat) * 100
    else 50
  (article.relevanceScore : Rat) * (1/2) + timeScore * (1/2)

/-- Title-keyed deduplication loop shared by both scripts: an article is kept
exactly when its title has not been seen before, in input order. -/
def dedupeGo (seenTitles : List String) : List Article → List Article
  | [] => []
  | article :: rest =>
    if seenTitles.contains article.title then dedupeGo seenTitles rest
    else article :: dedupeGo (article.title :: seenTitles) rest

/-- Deduplication step of both main functions. -/
def dedupe (articles : List Article) : List Article := dedupeGo [] articles

/-- Step 3 of the keyword edition main: keep exactly the articles whose
assignCategory result has a (truthy) category, writing the category and
relevanceScore fields. -/
def categorize (articles : List Article) : List Article :=
  articles.filterMap (fun article =>
    match assignCategory article with
    | (some c, score) => some { article with category := c, relevanceScore := score }
    | (none, _) => none)

/-- Math.max over a list of timestamps (used on a non-empty list). -/
def listMax : List Int → Int
  | [] => 0
  | x :: xs => xs.foldl max x

/-- Math.min over a list of timestamps (used on a non-empty list). -/
def listMin : List Int → Int
  | [] => 0
  | x :: xs => xs.foldl min x

/-- Comparator b.finalScore - a.finalScore (descending finalScore). -/
def byFinalScoreDesc (a b : Article) : Bool := decide (b.finalScore ≤ a.finalScore)

/-- Comparator b.relevanceScore - a.relevanceScore (descending relevance). -/
def byRelevanceDesc (a b : Article) : Bool := decide (b.relevanceScore ≤ a.relevanceScore)

/-- Comparator new Date(b.date) - new Date(a.date) (descending date). -/
def byDateDesc (a b : Article) : Bool := decide (b.date ≤ a.date)

/-- Step 4 of the keyword edition main: compute min/max timestamps over the
categorized set, write each article's finalScore, and sort by descending
finalScore (stable, as JavaScript Array.prototype.sort). -/
def rank (categorizedArticles : List Article) : List Article :=
  let dates := categorizedArticles.map (fun a => a.date)
  let maxDate := listMax dates
  let minDate := listMin dates
  (categorizedArticles.map (fun article =>
    { article with finalScore := calculateFinalScore article maxDate minDate })).mergeSort
    byFinalScoreDesc

/-- MIN_PER_CATEGORY of fetch-rss-new.js. -/
def MIN_PER_CATEGORY : Nat := 3

/-- TOTAL_LIMIT of fetch-rss-new.js. -/
def TOTAL_LIMIT : Nat := 50

/-- One round of phase 1 of the quota selection: the pool articles of the
given category whose link is not yet used, sorted by descending
relevanceScore, of which the first min(MIN_PER_CATEGORY, available) are
picked. -/
def categoryQuotaPicks (pool : List Article) (used : List String) (category : String) :
    List Article :=
  let categoryArticles :=
    (pool.filter (fun a => a.category == category && !(used.contains a.link))).mergeSort
      byRelevanceDesc
  categoryArticles.take (min MIN_PER_CATEGORY categoryArticles.length)

/-- Phase 1 of the quota selection: iterate the configured categories in
order, appending each round's picks and recording their links as used. -/
def phase1Go (pool : List Article) (used : List String) : List String → List Article
  | [] => []
  | category :: rest =>
    let picks := categoryQuotaPicks pool used category
    picks ++ phase1Go pool (used ++ picks.map (fun a => a.link)) rest

/-- Step 5 of the keyword edition main: phase 1 per-category quotas followed
by phase 2, which fills the remaining slots (TOTAL_LIMIT minus the phase 1
count) with the not-yet-used articles of the finalScore-sorted pool. -/
def selectWithQuota (pool : List Article) : List Article :=
  let firstRound := phase1Go pool [] categoryNames
  let usedLinks := firstRound.map (fun a => a.link)
  let remaining := TOTAL_LIMIT - firstRound.length
  firstRound ++ (pool.filter (fun a => !(usedLinks.contains a.link))).take remaining

/-- The in-memory pipeline of the keyword edition main (network fetch and
summary generation aside): dedupe, categorize, rank, quota-select. -/
def keywordPipeline (fetched : List Article) : List Article :=
  selectWithQuota (rank (categorize (dedupe fetched)))

/-- The in-memory pipeline of the recency-only edition mains (fetch-rss-new.js
first script and fetch-rss-optimized.js): dedupe, sort by descending date,
keep the first 50. -/
def recencyPipeline (fetched : List Article) : List Article :=
  ((dedupe fetched).mergeSort byDateDesc).take 50

/-- The parts of the written snapshot that depend on the article list. -/
structure Snapshot where
  totalArticles : Nat
  categories : List String
  articles : List Article
  deriving Repr, DecidableEq

/-- outputData of the keyword edition main: the articles array is exactly the
selected list, in selection order (summary generation mutates only the summary
field and never reorders). -/
def buildSnapshot (articles : List Article) : Snapshot :=
  { totalArticles := articles.length, categories := categoryNames, articles := articles }

/-- Outcome of one HTTP attempt against a summarization provider: a success
with a well-formed body, a success with a malformed body, a non-success
status, or a thrown error (network failure or body-read failure). -/
inductive ApiResult where
  | ok (summary : String)
  | badFormat
  | httpError (status : Nat)
  | exn
  deriving Repr, DecidableEq

/-- isChinese of both scripts: the regex character class u4e00-u9fa5 tested
against the text. -/
def isChinese (text : String) : Bool :=
  text.data.any (fun c => 0x4e00 ≤ c.toNat && c.toNat ≤ 0x9fa5)

/-- text.substring(0, 150) + ellipsis: the fallback summary used throughout
both scripts (at most 150 characters of the source text are kept). -/
def truncatedSummary (text : String) : String := String.mk (text.data.take 150) ++ "..."

/-- The retries parameter shared by all three provider functions. -/
def retries : Nat := 3

/-- Retry loop of generateSummaryWithQwen (fetch-rss-new.js): a non-success
status retries only when it is 429 or 503 and attempts remain; any other
non-success status and any malformed body return the fallback immediately; a
thrown error retries while attempts remain.  Returns the summary, the number
of attempts consumed, and the list of backoff delays (ms) in order. -/
def qwenGo (text : String) (o : Nat → ApiResult) (attempt : Nat) :
    Nat → String × Nat × List Nat
  | 0 => (truncatedSummary text, attempt, [])
  | rem + 1 =>
    match o attempt with
    | .ok s => (s, attempt + 1, [])
    | .badFormat => (truncatedSummary text, attempt + 1, [])
    | .httpError status =>
      if (status == 429 || status == 503) && rem > 0 then
        let r := qwenGo text o (attempt + 1) rem
        (r.1, r.2.1, (2 ^ attempt * 3000) :: r.2.2)
      else (truncatedSummary text, attempt + 1, [])
    | .exn =>
      if rem > 0 then
        let r := qwenGo text o (attempt + 1) rem
        (r.1, r.2.1, (2 ^ attempt * 3000) :: r.2.2)
      else (truncatedSummary text, attempt + 1, [])

/-- Retry loop shared by generateSummaryWithDoubao and
generateSummaryWithDeepSeek (fetch-rss-optimized.js): a 429/503 status retries
via the in-try branch, while every other failure (other statuses, malformed
bodies, thrown errors) throws into the catch block, which also retries while
attempts remain; the fallback is returned only on the final attempt.  Both
paths use the same backoff delay 2 ^ attempt * 3000 ms. -/
def retryAllGo (text : String) (o : Nat → ApiResult) (attempt : Nat) :
    Nat → String × Nat × List Nat
  | 0 => (truncatedSummary text, attempt, [])
  | rem + 1 =>
    match o attempt with
    | .ok s => (s, attempt + 1, [])
    | _ =>
      if rem > 0 then
        let r := retryAllGo text o (attempt + 1) rem
        (r.1, r.2.1, (2 ^ attempt * 3000) :: r.2.2)
      else (truncatedSummary text, attempt + 1, [])

/-- generateSummaryWithDoubao of fetch-rss-optimized.js: missing credential
short-circuits to the fallback with no attempt, otherwise the retry loop
runs. -/
def generateSummaryWithDoubao (apiKeyConfigured : Bool) (text : String) (o : Nat → ApiResult) :
    String × Nat × List Nat :=
  if !apiKeyConfigured then (truncatedSummary text, 0, [])
  else retryAllGo text o 0 retries

/-- generateSummaryWithDeepSeek of fetch-rss-optimized.js: identical control
flow to the Doubao variant. -/
def generateSummaryWithDeepSeek (apiKeyConfigured : Bool) (text : String) (o : Nat → ApiResult) :
    String × Nat × List Nat :=
  if !apiKeyConfigured then (truncatedSummary text, 0, [])
  else retryAllGo text o 0 retries

/-- generateSummaryWithQwen of fetch-rss-new.js: missing credential or an
already-Chinese text short-circuits to the fallback with no attempt. -/
def generateSummaryWithQwen (apiKeyConfigured : Bool) (text : String) (o : Nat → ApiResult) :
    String × Nat × List Nat :=
  if !apiKeyConfigured then (truncatedSummary text, 0, [])
  else if isChinese text then (truncatedSummary text, 0, [])
  else qwenGo text o 0 retries

/-- generateSummary of fetch-rss-optimized.js: an already-Chinese text is
truncated with no network call; otherwise the configured provider is
dispatched. -/
def generateSummary (provider : String) (apiKeyConfigured : Bool) (text : String)
    (o : Nat → ApiResult) : String × Nat × List Nat :=
  if isChinese text then (truncatedSummary text, 0, [])
  else if provider == "deepseek" then generateSummaryWithDeepSeek apiKeyConfigured text o
  else generateSummaryWithDoubao apiKeyConfigured text o

/-- Math.max over the scores of a list (0 on the empty list, matching the
initial best score of assignCategory). -/
def listMaxNat (l : List Nat) : Nat := l.foldr max 0

/-- Phase 2 of the quota selection as a standalone function of the pool. -/
def phase2Of (pool : List Article) : List Article :=
  (pool.filter (fun a =>
    !(((phase1Go pool [] categoryNames).map (fun x => x.link)).contains a.link))).take
    (TOTAL_LIMIT - (phase1Go pool [] categoryNames).length)

/-- The first phase 1 round on the given pool (category 材料创新). -/
def quotaRound1 (pool : List Article) : List Article :=
  categoryQuotaPicks pool [] "材料创新"

/-- The second phase 1 round on the given pool (category 汽车防腐). -/
def quotaRound2 (pool : List Article) : List Article :=
  categoryQuotaPicks pool ([] ++ (quotaRound1 pool).map (fun a => a.link)) "汽车防腐"

/-- The third phase 1 round on the given pool (category 车内健康). -/
def quotaRound3 (pool : List Article) : List Article :=
  categoryQuotaPicks pool
    (([] ++ (quotaRound1 pool).map (fun a => a.link)) ++ (quotaRound2 pool).map (fun a => a.link))
    "车内健康"

/-- Constructor for concrete test articles (raw fetched shape). -/
def mkArticle (t l : String) (d : Int) (desc : String) : Article :=
  { title := t, link := l, date := d, category := "", description := desc,
    summary := "", relevanceScore := 0, finalScore := 0 }

/-- Concrete article matching only the 材料创新 keywords, oldest timestamp. -/
def demoAluminum : Article := mkArticle "aluminum" "https://a" 0 ""

/-- Concrete article matching only the 汽车防腐 keywords, newest timestamp. -/
def demoCorrosion : Article := mkArticle "corrosion" "https://b" 1000000 ""

/-- demoAluminum as the categorization stage leaves it. -/
def demoAluminumCategorized : Article :=
  { demoAluminum with category := "材料创新", relevanceScore := 30 }

/-- demoCorrosion as the categorization stage leaves it. -/
def demoCorrosionCategorized : Article :=
  { demoCorrosion with category := "汽车防腐", relevanceScore := 30 }

/-- demoAluminum as the ranking stage leaves it (oldest of the pair, so its
time score is 0 and its final score 15). -/
def demoAluminumRanked : Article :=
  { demoAluminumCategorized with finalScore := 15 }

/-- demoCorrosion as the ranking stage leaves it (newest of the pair, so its
time score is 100 and its final score 65). -/
def demoCorrosionRanked : Article :=
  { demoCorrosionCategorized with finalScore := 65 }

/-- The finalScore the ranking stage writes, as a function of the article and
the categorized set. -/
def rankScored (cs : List Article) (y : Article) : Article :=
  { y with
    finalScore :=
      calculateFinalScore y (listMax (cs.map (fun a => a.date)))
        (listMin (cs.map (fun a => a.date))) }

/-! Helper lemmas. -/

theorem dedupeGo_length_le (seen : List String) (l : List Article) :
    (dedupeGo seen l).length ≤ l.length := by
  induction l generalizing seen with
  | nil => simp [dedupeGo]
  | cons a rest ih =>
    simp only [dedupeGo]
    split
    · exact Nat.le_succ_of_le (ih seen)
    · simpa using Nat.succ_le_succ (ih (a.title :: seen))

theorem dedupeGo_sublist (seen : List String) (l : List Article) :
    (dedupeGo seen l).Sublist l := by
  induction l generalizing seen with
  | nil => simp [dedupeGo]
  | cons a rest ih =>
    simp only [dedupeGo]
    split
    · exact (ih seen).cons a
    · exact (ih (a.title :: seen)).cons₂ a

theorem title_not_seen_of_mem_dedupeGo (seen : List String) (l : List Article)
    (a : Article) (h : a ∈ dedupeGo seen l) : a.title ∉ seen := by
  induction l generalizing seen with
  | nil => simp [dedupeGo] at h
  | cons b rest ih =>
    simp only [dedupeGo] at h
    split at h
    · exact ih seen h
    · rcases List.mem_cons.1 h with h1 | h1
      · subst h1
        rename_i hc
        simpa using hc
      · have := ih (b.title :: seen) h1
        exact fun hmem => this (List.mem_cons_of_mem _ hmem)

theorem dedupeGo_titles_nodup (seen : List String) (l : List Article) :
    ((dedupeGo seen l).map (fun a => a.title)).Nodup := by
  induction l generalizing seen with
  | nil => simp [dedupeGo]
  | cons a rest ih =>
    simp only [dedupeGo]
    split
    · exact ih seen
    · rw [List.map_cons, List.nodup_cons]
      refine ⟨?_, ih (a.title :: seen)⟩
      intro hmem
      rcases List.mem_map.1 hmem with ⟨b, hb, hbt⟩
      have := title_not_seen_of_mem_dedupeGo _ _ _ hb
      exact this (by rw [hbt]; exact List.mem_cons_self _ _)

theorem dedupeGo_eq_self (seen : List String) (l : List Article)
    (hdisj : ∀ a ∈ l, a.title ∉ seen) (hnd : (l.map (fun a => a.title)).Nodup) :
    dedupeGo seen l = l := by
  induction l generalizing seen with
  | nil => simp [dedupeGo]
  | cons a rest ih =>
    simp only [dedupeGo]
    have hna : a.title ∉ seen := hdisj a (List.mem_cons_self _ _)
    rw [if_neg (by simpa using hna)]
    congr 1
    rw [List.map_cons, List.nodup_cons] at hnd
    refine ih (a.title :: seen) ?_ hnd.2
    intro b hb hmem
    rcases List.mem_cons.1 hmem with h1 | h1
    · exact hnd.1 (List.mem_map.2 ⟨b, hb, h1⟩)
    · exact hdisj b (List.mem_cons_of_mem _ hb) h1

theorem dedupeGo_find (seen : List String) (l : List Article) (t : String)
    (h : t ∉ seen) :
    (dedupeGo seen l).find? (fun b => b.title == t) = l.find? (fun b => b.title == t) := by
  induction l generalizing seen with
  | nil => simp [dedupeGo]
  | cons a rest ih =>
    simp only [dedupeGo]
    split
    · rename_i hc
      have hat : a.title ∈ seen := by simpa using hc
      have hr : List.find? (fun b : Article => b.title == t) (a :: rest) =
          List.find? (fun b : Article => b.title == t) rest :=
        List.find?_cons_of_neg rest (by
          simp only [beq_iff_eq]
          intro he
          exact h (he ▸ hat))
      rw [hr]
      exact ih seen h
    · by_cases he : a.title = t
      · have hr1 : List.find? (fun b : Article => b.title == t)
            (a :: dedupeGo (a.title :: seen) rest) = some a :=
          List.find?_cons_of_pos _ (by simpa using he)
        have hr2 : List.find? (fun b : Article => b.title == t) (a :: rest) = some a :=
          List.find?_cons_of_pos _ (by simpa using he)
        rw [hr1, hr2]
      · have hr1 : List.find? (fun b : Article => b.title == t)
            (a :: dedupeGo (a.title :: seen) rest) =
            List.find? (fun b : Article => b.title == t) (dedupeGo (a.title :: seen) rest) :=
          List.find?_cons_of_neg _ (by simpa using he)
        have hr2 : List.find? (fun b : Article => b.title == t) (a :: rest) =
            List.find? (fun b : Article => b.title == t) rest :=
          List.find?_cons_of_neg _ (by simpa using he)
        rw [hr1, hr2]
        refine ih (a.title :: seen) ?_
        intro hmem
        rcases List.mem_cons.1 hmem with h1 | h1
        · exact he h1.symm
        · exact h h1

/-- C8: the deduplication step is idempotent, never lengthens its input, its
output has pairwise distinct titles, it is a subsequence of the input
(preserving first-seen order), and for each input title the kept article is
exactly the first input occurrence of that title. -/
theorem C8_dedupe_properties (l : List Article) :
    dedupe (dedupe l) = dedupe l ∧
    (dedupe l).length ≤ l.length ∧
    ((dedupe l).map (fun a => a.title)).Nodup ∧
    (dedupe l).Sublist l ∧
    ∀ a ∈ l, (dedupe l).find? (fun b => b.title == a.title) =
      l.find? (fun b => b.title == a.title) := by
  refine ⟨?_, dedupeGo_length_le [] l, dedupeGo_titles_nodup [] l, dedupeGo_sublist [] l, ?_⟩
  · exact dedupeGo_eq_self [] (dedupe l) (by simp) (dedupeGo_titles_nodup [] l)
  · intro a _
    exact dedupeGo_find [] l a.title (by simp)

/-- Witness for C8 at a concrete two-article input sharing a title. -/
theorem C8_witness :
    dedupe (dedupe [demoAluminum, mkArticle "aluminum" "https://c" 5 "x"]) =
      dedupe [demoAluminum, mkArticle "aluminum" "https://c" 5 "x"] ∧
    (dedupe [demoAluminum, mkArticle "aluminum" "https://c" 5 "x"]).find?
        (fun b => b.title == demoAluminum.title) =
      [demoAluminum, mkArticle "aluminum" "https://c" 5 "x"].find?
        (fun b => b.title == demoAluminum.title) :=
  ⟨(C8_dedupe_properties [demoAluminum, mkArticle "aluminum" "https://c" 5 "x"]).1,
   (C8_dedupe_properties [demoAluminum, mkArticle "aluminum" "https://c" 5 "x"]).2.2.2.2
     demoAluminum (by decide)⟩

theorem phase1Go_length_le (pool : List Article) (used : List String)
    (names : List String) :
    (phase1Go pool used names).length ≤ MIN_PER_CATEGORY * names.length := by
  induction names generalizing used with
  | nil => simp [phase1Go]
  | cons c rest ih =>
    simp only [phase1Go, List.length_append]
    have h1 : (categoryQuotaPicks pool used c).length ≤ MIN_PER_CATEGORY := by
      unfold categoryQuotaPicks
      simp only [List.length_take]
      omega
    have h2 := ih (used ++ (categoryQuotaPicks pool used c).map (fun a => a.link))
    simp only [List.length_cons]
    calc (categoryQuotaPicks pool used c).length + (phase1Go pool _ rest).length
        ≤ MIN_PER_CATEGORY + MIN_PER_CATEGORY * rest.length := Nat.add_le_add h1 h2
      _ = MIN_PER_CATEGORY * (rest.length + 1) := by ring

theorem selectWithQuota_length_le (pool : List Article) :
    (selectWithQuota pool).length ≤ TOTAL_LIMIT := by
  unfold selectWithQuota
  simp only [List.length_append]
  have h1 : (phase1Go pool [] categoryNames).length ≤ MIN_PER_CATEGORY * 3 := by
    have := phase1Go_length_le pool [] categoryNames
    simpa using this
  have h2 : ∀ (l : List Article) (n : Nat), (l.take n).length ≤ n := by
    intro l n; simp [List.length_take]
  have h3 := h2 (pool.filter (fun a =>
    !(((phase1Go pool [] categoryNames).map (fun x => x.link)).contains a.link)))
    (TOTAL_LIMIT - (phase1Go pool [] categoryNames).length)
  simp only [MIN_PER_CATEGORY, TOTAL_LIMIT] at *
  omega

/-- C3: the final selected list never exceeds 50 articles, in both the
recency-only edition (slice of the top 50 after the date sort) and the
blended keyword edition (two-phase quota selection). -/
theorem C3_output_cap (l : List Article) :
    (recencyPipeline l).length ≤ 50 ∧ (keywordPipeline l).length ≤ 50 := by
  constructor
  · unfold recencyPipeline
    simp [List.length_take]
  · exact selectWithQuota_length_le _

/-- C7: a description containing at least one character in the u4e00-u9fa5
range is summarized with no provider attempt, deterministically, as the
description truncated to its first 150 characters (all of it when shorter)
followed by the ellipsis marker. -/
theorem C7_chinese_fallback (provider : String) (apiKeyConfigured : Bool)
    (text : String) (o : Nat → ApiResult)
    (h : ∃ c ∈ text.data, 0x4e00 ≤ c.toNat ∧ c.toNat ≤ 0x9fa5) :
    generateSummary provider apiKeyConfigured text o = (truncatedSummary text, 0, []) ∧
    truncatedSummary text = String.mk (text.data.take 150) ++ "..." ∧
    (150 ≤ text.data.length → (truncatedSummary text).length = 153) := by
  have hch : isChinese text = true := by
    simp only [isChinese, List.any_eq_true]
    rcases h with ⟨c, hc, h1, h2⟩
    exact ⟨c, hc, by simp [h1, h2]⟩
  refine ⟨by simp [generateSummary, hch], rfl, ?_⟩
  intro hlen
  simp only [truncatedSummary, String.length_append]
  have h150 : (String.mk (text.data.take 150)).length = 150 := by
    show (text.data.take 150).length = 150
    rw [List.length_take]
    omega
  rw [h150]
  rfl

/-- Witness for C7 at a concrete Chinese description. -/
theorem C7_witness :
    generateSummary "doubao" true "汽车材料资讯" (fun _ => ApiResult.exn) =
      (truncatedSummary "汽车材料资讯", 0, []) :=
  (C7_chinese_fallback "doubao" true "汽车材料资讯" (fun _ => ApiResult.exn)
    (by decide)).1

theorem kwConfigLower : ∀ p ∈ CATEGORY_KEYWORDS,
    (∀ w ∈ p.2.incl, lowerStr w = w) ∧ (∀ w ∈ p.2.excl, lowerStr w = w) := by decide

theorem find_config (name : String) (kws : Keywords)
    (h : (name, kws) ∈ CATEGORY_KEYWORDS) :
    CATEGORY_KEYWORDS.find? (fun p => p.1 == name) = some (name, kws) := by
  fin_cases h <;> decide

theorem any_congr_mem {α : Type} {l : List α} {p q : α → Bool}
    (h : ∀ a ∈ l, p a = q a) : l.any p = l.any q := by
  induction l with
  | nil => rfl
  | cons a rest ih =>
    simp only [List.any_cons, h a (List.mem_cons_self _ _)]
    rw [ih (fun b hb => h b (List.mem_cons_of_mem _ hb))]

theorem foldl_matchCount (incl : List String) (p q : String → Bool) (acc : Nat) :
    incl.foldl (fun acc w => if p w then acc + 1 + (if q w then 2 else 0) else acc) acc =
    acc + (incl.map (fun w => if p w then 1 + (if q w then 2 else 0) else 0)).sum := by
  induction incl generalizing acc with
  | nil => simp
  | cons w rest ih =>
    simp only [List.foldl_cons, List.map_cons, List.sum_cons]
    by_cases hp : p w = true
    · simp only [if_pos hp]
      rw [ih]
      omega
    · simp only [if_neg hp]
      rw [ih]
      omega

theorem specRelevanceScore_le (article : Article) (kws : Keywords) :
    specRelevanceScore article kws ≤ 100 := by
  by_cases hv : (kws.excl.any fun w =>
      containsStr (lowerStr (article.title ++ " " ++ article.description)) w) = true
  · simp [specRelevanceScore, hv]
  · simp only [specRelevanceScore, if_neg hv]
    exact Nat.min_le_left _ _

/-- C1: for every article and configured category, calculateRelevanceScore
equals the reference definition transcribed from the spec (hard veto on any
exclude keyword in the lowercased combined text; otherwise min(100, 10 x P)
with a 2-point title bonus per matched include keyword); hence the score is
in [0, 100], and an article whose combined search text contains an exclude
keyword of the category scores 0 there. -/
theorem C1_relevance_score (article : Article) (name : String) (kws : Keywords)
    (h : (name, kws) ∈ CATEGORY_KEYWORDS) :
    calculateRelevanceScore article name = specRelevanceScore article kws ∧
    calculateRelevanceScore article name ≤ 100 ∧
    ∀ w ∈ kws.excl,
      containsStr (lowerStr (article.title ++ " " ++ article.description)) w = true →
      calculateRelevanceScore article name = 0 := by
  have hfind := find_config name kws h
  have hlow := kwConfigLower (name, kws) h
  have heq : calculateRelevanceScore article name = specRelevanceScore article kws := by
    unfold calculateRelevanceScore specRelevanceScore
    rw [hfind]
    simp only
    have hexcl : (kws.excl.any fun w =>
        containsStr (lowerStr (article.title ++ " " ++ article.description)) (lowerStr w)) =
        (kws.excl.any fun w =>
        containsStr (lowerStr (article.title ++ " " ++ article.description)) w) :=
      any_congr_mem (fun w hw => by rw [hlow.2 w hw])
    rw [hexcl]
    split
    · rfl
    · rw [foldl_matchCount]
      simp only [Nat.zero_add]
      have hmap : kws.incl.map (fun w =>
          if containsStr (lowerStr (article.title ++ " " ++ article.description)) (lowerStr w)
          then 1 + (if containsStr (lowerStr article.title) (lowerStr w) then 2 else 0)
          else 0) =
          kws.incl.map (fun w =>
          if containsStr (lowerStr (article.title ++ " " ++ article.description)) w
          then 1 + (if containsStr (lowerStr article.title) w then 2 else 0)
          else 0) :=
        List.map_congr_left (fun w hw => by rw [hlow.1 w hw])
      rw [hmap, Nat.mul_comm]
  refine ⟨heq, heq ▸ specRelevanceScore_le article kws, ?_⟩
  intro w hw hc
  rw [heq]
  unfold specRelevanceScore
  rw [if_pos ?hv]
  case hv =>
    rw [List.any_eq_true]
    exact ⟨w, hw, hc⟩

/-- Witness for C1: a concrete article hitting a 材料创新 exclude keyword is
vetoed to score 0, and the score bound holds there. -/
theorem C1_witness :
    calculateRelevanceScore (mkArticle "new cpu released" "https://c" 0 "aluminum")
      "材料创新" = 0 ∧
    calculateRelevanceScore (mkArticle "new cpu released" "https://c" 0 "aluminum")
      "材料创新" ≤ 100 :=
  ⟨(C1_relevance_score (mkArticle "new cpu released" "https://c" 0 "aluminum")
      "材料创新" materialKeywords (by decide)).2.2 "cpu" (by decide) (by decide),
   (C1_relevance_score (mkArticle "new cpu released" "https://c" 0 "aluminum")
      "材料创新" materialKeywords (by decide)).2.1⟩

theorem foldl_best_char (f : String → Nat) :
    ∀ (names : List String) (ob : Option String) (sb : Nat),
      names.foldl (fun best c =>
        let score := f c
        if score > best.2 then (some c, score) else best) (ob, sb) =
      if listMaxNat (names.map f) > sb
      then (names.find? (fun c => f c == listMaxNat (names.map f)),
            listMaxNat (names.map f))
      else (ob, sb) := by
  intro names
  induction names with
  | nil =>
    intro ob sb
    simp [listMaxNat]
  | cons c rest ih =>
    intro ob sb
    have hM : listMaxNat ((c :: rest).map f) = max (f c) (listMaxNat (rest.map f)) := rfl
    rw [List.foldl_cons, hM]
    dsimp only
    by_cases h1 : sb < f c
    · rw [if_pos h1, ih (some c) (f c)]
      by_cases h2 : f c < listMaxNat (rest.map f)
      · have hmax : max (f c) (listMaxNat (rest.map f)) = listMaxNat (rest.map f) :=
          Nat.max_eq_right (Nat.le_of_lt h2)
        have hfind : (c :: rest).find? (fun x => f x == listMaxNat (rest.map f)) =
            rest.find? (fun x => f x == listMaxNat (rest.map f)) :=
          List.find?_cons_of_neg _ (by simp only [beq_iff_eq]; omega)
        rw [if_pos h2, hmax, if_pos (Nat.lt_trans h1 h2), hfind]
      · have hle : listMaxNat (rest.map f) ≤ f c := Nat.not_lt.1 h2
        have hmax : max (f c) (listMaxNat (rest.map f)) = f c := Nat.max_eq_left hle
        have hfind : (c :: rest).find? (fun x => f x == f c) = some c :=
          List.find?_cons_of_pos _ (by simp)
        rw [if_neg h2, hmax, if_pos h1, hfind]
    · rw [if_neg h1, ih ob sb]
      have hfc : f c ≤ sb := Nat.not_lt.1 h1
      by_cases h2 : sb < listMaxNat (rest.map f)
      · have hmax : max (f c) (listMaxNat (rest.map f)) = listMaxNat (rest.map f) :=
          Nat.max_eq_right (by omega)
        have hfind : (c :: rest).find? (fun x => f x == listMaxNat (rest.map f)) =
            rest.find? (fun x => f x == listMaxNat (rest.map f)) :=
          List.find?_cons_of_neg _ (by simp only [beq_iff_eq]; omega)
        rw [if_pos h2, hmax, if_pos h2, hfind]
      · have hmaxle : ¬ sb < max (f c) (listMaxNat (rest.map f)) := by
          rw [Nat.not_lt] at h2 ⊢
          exact Nat.max_le.2 ⟨hfc, h2⟩
        rw [if_neg h2, if_neg hmaxle]

/-- Characterization of assignCategory: the returned score is the maximum
relevance score over the configured categories, and the returned category is
the first configured category attaining that maximum when it is positive,
null otherwise. -/
theorem assignCategory_eq (article : Article) :
    assignCategory article =
      (if 0 < listMaxNat (categoryNames.map (calculateRelevanceScore article))
       then categoryNames.find? (fun c => calculateRelevanceScore article c ==
              listMaxNat (categoryNames.map (calculateRelevanceScore article)))
       else none,
       listMaxNat (categoryNames.map (calculateRelevanceScore article))) := by
  have h := foldl_best_char (calculateRelevanceScore article) categoryNames none 0
  by_cases hM : 0 < listMaxNat (categoryNames.map (calculateRelevanceScore article))
  · rw [if_pos hM]
    unfold assignCategory
    rw [h, if_pos hM]
  · rw [if_neg hM]
    unfold assignCategory
    rw [h, if_neg hM, Nat.eq_zero_of_not_pos hM]

theorem mem_of_mem_categoryQuotaPicks (pool : List Article) (used : List String)
    (category : String) (x : Article) (h : x ∈ categoryQuotaPicks pool used category) :
    x ∈ pool := by
  unfold categoryQuotaPicks at h
  have h1 := List.mem_of_mem_take h
  rw [List.mem_mergeSort] at h1
  exact (List.mem_filter.1 h1).1

theorem mem_of_mem_phase1Go (pool : List Article) :
    ∀ (names : List String) (used : List String) (x : Article),
      x ∈ phase1Go pool used names → x ∈ pool := by
  intro names
  induction names with
  | nil =>
    intro used x h
    simp [phase1Go] at h
  | cons c rest ih =>
    intro used x h
    simp only [phase1Go, List.mem_append] at h
    rcases h with h | h
    · exact mem_of_mem_categoryQuotaPicks _ _ _ _ h
    · exact ih _ x h

theorem mem_of_mem_selectWithQuota (pool : List Article) (x : Article)
    (h : x ∈ selectWithQuota pool) : x ∈ pool := by
  simp only [selectWithQuota, List.mem_append] at h
  rcases h with h | h
  · exact mem_of_mem_phase1Go pool categoryNames [] x h
  · exact (List.mem_filter.1 (List.mem_of_mem_take h)).1

theorem rank_mem (cs : List Article) (x : Article) (h : x ∈ rank cs) :
    ∃ y ∈ cs, x = rankScored cs y := by
  simp only [rank, List.mem_mergeSort, List.mem_map] at h
  rcases h with ⟨y, hy, hx⟩
  exact ⟨y, hy, hx.symm⟩

theorem categorize_mem (l : List Article) (x : Article) (h : x ∈ categorize l) :
    ∃ a ∈ l, assignCategory a = (some x.category, x.relevanceScore) ∧
      x = { a with category := x.category, relevanceScore := x.relevanceScore } := by
  simp only [categorize, List.mem_filterMap] at h
  rcases h with ⟨a, ha, hfa⟩
  rcases hass : assignCategory a with ⟨oc, s⟩
  rw [hass] at hfa
  cases oc with
  | none => simp at hfa
  | some c =>
    simp only [Option.some.injEq] at hfa
    subst hfa
    exact ⟨a, ha, hass, rfl⟩

theorem assignCategory_update1 (a : Article) (c : String) (s : Nat) :
    assignCategory { a with category := c, relevanceScore := s } = assignCategory a := rfl

theorem assignCategory_update2 (a : Article) (q : Rat) :
    assignCategory { a with finalScore := q } = assignCategory a := rfl

/-- C2: assignCategory returns the category with the strictly highest
relevance score — on ties the first category in configuration order, since a
later category must strictly exceed the current best — and null with score 0
when no category scores positively; and every article of the final snapshot
of the keyword pipeline carries a positively-scored assigned category, so an
article whose best score is 0 is excluded from all downstream stages. -/
theorem C2_category_assignment :
    (∀ article : Article,
      assignCategory article =
        (if 0 < listMaxNat (categoryNames.map (calculateRelevanceScore article))
         then categoryNames.find? (fun c => calculateRelevanceScore article c ==
                listMaxNat (categoryNames.map (calculateRelevanceScore article)))
         else none,
         listMaxNat (categoryNames.map (calculateRelevanceScore article)))) ∧
    (∀ (fetched : List Article) (x : Article),
      x ∈ (buildSnapshot (keywordPipeline fetched)).articles →
      (assignCategory x).1 = some x.category ∧ 0 < x.relevanceScore) := by
  refine ⟨assignCategory_eq, ?_⟩
  intro fetched x hx
  have hx1 : x ∈ keywordPipeline fetched := hx
  unfold keywordPipeline at hx1
  have hx2 := mem_of_mem_selectWithQuota _ _ hx1
  rcases rank_mem _ _ hx2 with ⟨y, hy, hxy⟩
  rcases categorize_mem _ _ hy with ⟨a, _, hass, hya⟩
  have hxcat : x.category = y.category := by rw [hxy]; rfl
  have hxrel : x.relevanceScore = y.relevanceScore := by rw [hxy]; rfl
  have hxass : assignCategory x = assignCategory y := by
    rw [hxy]
    exact assignCategory_update2 y _
  have hyass : assignCategory y = (some y.category, y.relevanceScore) := by
    rw [hya, assignCategory_update1]
    rw [hya] at hass
    simpa using hass
  have hchar := assignCategory_eq y
  rw [hyass] at hchar
  by_cases hM : 0 < listMaxNat (categoryNames.map (calculateRelevanceScore y))
  · rw [if_pos hM] at hchar
    rw [Prod.mk.injEq] at hchar
    refine ⟨?_, ?_⟩
    · rw [hxass, hyass, hxcat]
    · rw [hxrel, hchar.2]
      exact hM
  · rw [if_neg hM] at hchar
    rw [Prod.mk.injEq] at hchar
    simp at hchar

/-- Witness for C2 on a concrete pipeline run. -/
theorem C2_witness :
    (assignCategory demoAluminumRanked).1 = some demoAluminumRanked.category ∧
    0 < demoAluminumRanked.relevanceScore :=
  C2_category_assignment.2 [demoAluminum, demoCorrosion] demoAluminumRanked (by decide!)

theorem dvd_calculateRelevanceScore (a : Article) (c : String) :
    10 ∣ calculateRelevanceScore a c := by
  simp only [calculateRelevanceScore]
  split
  · exact ⟨0, rfl⟩
  · split
    · exact ⟨0, rfl⟩
    · rw [Nat.min_def]
      split
      · exact ⟨10, rfl⟩
      · exact ⟨_, Nat.mul_comm _ 10⟩

theorem calculateRelevanceScore_le (a : Article) (c : String) :
    calculateRelevanceScore a c ≤ 100 := by
  simp only [calculateRelevanceScore]
  split
  · omega
  · split
    · omega
    · exact Nat.min_le_left _ _

theorem listMaxNat_dvd {l : List Nat} (h : ∀ x ∈ l, 10 ∣ x) : 10 ∣ listMaxNat l := by
  induction l with
  | nil => exact ⟨0, rfl⟩
  | cons x rest ih =>
    have hx : listMaxNat (x :: rest) = max x (listMaxNat rest) := rfl
    rw [hx]
    rcases Nat.le_total x (listMaxNat rest) with hle | hle
    · rw [Nat.max_eq_right hle]
      exact ih (fun v hv => h v (List.mem_cons_of_mem _ hv))
    · rw [Nat.max_eq_left hle]
      exact h x (List.mem_cons_self _ _)

theorem listMaxNat_le {l : List Nat} {n : Nat} (h : ∀ x ∈ l, x ≤ n) :
    listMaxNat l ≤ n := by
  induction l with
  | nil => exact Nat.zero_le n
  | cons x rest ih =>
    have hx : listMaxNat (x :: rest) = max x (listMaxNat rest) := rfl
    rw [hx]
    exact Nat.max_le.2 ⟨h x (List.mem_cons_self _ _),
      ih (fun v hv => h v (List.mem_cons_of_mem _ hv))⟩

theorem categoryNames_ne_empty : ∀ c ∈ categoryNames, c ≠ "" := by decide

/-- C9: every article surviving categorization carries a relevanceScore that
is a positive multiple of 10 and at most 100, and a non-empty category
string. -/
theorem C9_score_granularity (l : List Article) (x : Article) (hx : x ∈ categorize l) :
    10 ∣ x.relevanceScore ∧ 0 < x.relevanceScore ∧ x.relevanceScore ≤ 100 ∧
    x.category ≠ "" := by
  rcases categorize_mem l x hx with ⟨a, _, hass, _⟩
  have hchar := assignCategory_eq a
  rw [hass] at hchar
  by_cases hM : 0 < listMaxNat (categoryNames.map (calculateRelevanceScore a))
  · rw [if_pos hM] at hchar
    rw [Prod.mk.injEq] at hchar
    have hrel : x.relevanceScore = listMaxNat (categoryNames.map (calculateRelevanceScore a)) :=
      hchar.2
    have hdvd : 10 ∣ listMaxNat (categoryNames.map (calculateRelevanceScore a)) := by
      refine listMaxNat_dvd ?_
      intro v hv
      rcases List.mem_map.1 hv with ⟨c, _, hveq⟩
      rw [← hveq]
      exact dvd_calculateRelevanceScore a c
    have hle : listMaxNat (categoryNames.map (calculateRelevanceScore a)) ≤ 100 := by
      refine listMaxNat_le ?_
      intro v hv
      rcases List.mem_map.1 hv with ⟨c, _, hveq⟩
      rw [← hveq]
      exact calculateRelevanceScore_le a c
    have hmem : x.category ∈ categoryNames :=
      List.mem_of_find?_eq_some hchar.1.symm
    exact ⟨hrel ▸ hdvd, hrel ▸ hM, hrel ▸ hle, categoryNames_ne_empty _ hmem⟩
  · rw [if_neg hM] at hchar
    rw [Prod.mk.injEq] at hchar
    simp at hchar

/-- Witness for C9 on a concrete categorized article. -/
theorem C9_witness :
    10 ∣ demoAluminumCategorized.relevanceScore ∧
    0 < demoAluminumCategorized.relevanceScore ∧
    demoAluminumCategorized.relevanceScore ≤ 100 ∧
    demoAluminumCategorized.category ≠ "" :=
  C9_score_granularity [demoAluminum] demoAluminumCategorized (by decide)

theorem le_foldl_max (b : Int) (l : List Int) : b ≤ l.foldl max b := by
  induction l generalizing b with
  | nil => exact le_refl b
  | cons x xs ih =>
    rw [List.foldl_cons]
    exact le_trans (le_max_left b x) (ih (max b x))

theorem foldl_min_le (b : Int) (l : List Int) : l.foldl min b ≤ b := by
  induction l generalizing b with
  | nil => exact le_refl b
  | cons x xs ih =>
    rw [List.foldl_cons]
    exact le_trans (ih (min b x)) (min_le_left b x)

theorem listMin_le_listMax {l : List Int} (h : l ≠ []) : listMin l ≤ listMax l := by
  cases l with
  | nil => exact absurd rfl h
  | cons x xs =>
    calc listMin (x :: xs) = xs.foldl min x := rfl
    _ ≤ x := foldl_min_le x xs
    _ ≤ xs.foldl max x := le_foldl_max x xs

/-- C5: in the blended edition, on a non-empty categorized set, each ranked
article's finalScore is relevanceScore * 0.5 + timeScore * 0.5, where
timeScore interpolates the article's timestamp between the minimum and
maximum timestamps of the categorized set scaled to 0..100, and is 50 for
every article when the maximum equals the minimum. -/
theorem C5_final_score_formula (cs : List Article) (hcs : cs ≠ []) (x : Article)
    (hx : x ∈ rank cs) :
    x.finalScore = (x.relevanceScore : Rat) * (1/2) +
      (if listMax (cs.map (fun a => a.date)) = listMin (cs.map (fun a => a.date))
       then (50 : Rat)
       else ((x.date : Rat) - ((listMin (cs.map (fun a => a.date)) : Int) : Rat)) /
            (((listMax (cs.map (fun a => a.date)) : Int) : Rat) -
             ((listMin (cs.map (fun a => a.date)) : Int) : Rat)) * 100) * (1/2) := by
  rcases rank_mem cs x hx with ⟨y, _, hxy⟩
  subst hxy
  have hne : cs.map (fun a => a.date) ≠ [] := by
    intro h0
    exact hcs (List.map_eq_nil_iff.1 h0)
  have hminmax := listMin_le_listMax hne
  simp only [rankScored]
  unfold calculateFinalScore
  by_cases heq : listMax (cs.map (fun a => a.date)) = listMin (cs.map (fun a => a.date))
  · have hng : ¬ (0 : Int) < listMax (cs.map (fun a => a.date)) -
        listMin (cs.map (fun a => a.date)) := by omega
    rw [if_pos heq]
    simp only [hng, if_false]
  · have hg : (0 : Int) < listMax (cs.map (fun a => a.date)) -
        listMin (cs.map (fun a => a.date)) := by omega
    rw [if_neg heq]
    simp only [hg, if_true]
    rw [Int.cast_sub]

/-- Witness for C5 on a concrete two-article categorized set. -/
theorem C5_witness :
    demoAluminumRanked.finalScore = (demoAluminumRanked.relevanceScore : Rat) * (1/2) +
      (if listMax ([demoAluminumCategorized, demoCorrosionCategorized].map (fun a => a.date)) =
          listMin ([demoAluminumCategorized, demoCorrosionCategorized].map (fun a => a.date))
       then (50 : Rat)
       else ((demoAluminumRanked.date : Rat) -
             ((listMin ([demoAluminumCategorized, demoCorrosionCategorized].map
                (fun a => a.date)) : Int) : Rat)) /
            (((listMax ([demoAluminumCategorized, demoCorrosionCategorized].map
                (fun a => a.date)) : Int) : Rat) -
             ((listMin ([demoAluminumCategorized, demoCorrosionCategorized].map
                (fun a => a.date)) : Int) : Rat)) * 100) * (1/2) :=
  C5_final_score_formula [demoAluminumCategorized, demoCorrosionCategorized] (by decide)
    demoAluminumRanked (by decide!)

theorem qwenGo_used_le (text : String) (o : Nat → ApiResult) :
    ∀ (rem attempt : Nat), (qwenGo text o attempt rem).2.1 ≤ attempt + rem := by
  intro rem
  induction rem with
  | zero => intro attempt; simp [qwenGo]
  | succ rem ih =>
    intro attempt
    cases ho : o attempt with
    | ok s =>
      simp only [qwenGo, ho]
      omega
    | badFormat =>
      simp only [qwenGo, ho]
      omega
    | httpError status =>
      simp only [qwenGo, ho]
      split
      · have := ih (attempt + 1)
        dsimp only
        omega
      · dsimp only
        omega
    | exn =>
      simp only [qwenGo, ho]
      split
      · have := ih (attempt + 1)
        dsimp only
        omega
      · dsimp only
        omega

theorem qwenGo_used_gt (text : String) (o : Nat → ApiResult) :
    ∀ (rem attempt : Nat), 0 < rem → attempt < (qwenGo text o attempt rem).2.1 := by
  intro rem
  induction rem with
  | zero => intro attempt h; omega
  | succ rem ih =>
    intro attempt _
    cases ho : o attempt with
    | ok s =>
      simp only [qwenGo, ho]
      omega
    | badFormat =>
      simp only [qwenGo, ho]
      omega
    | httpError status =>
      simp only [qwenGo, ho]
      split
      · rename_i hcond
        simp only [Bool.and_eq_true, decide_eq_true_eq] at hcond
        have := ih (attempt + 1) hcond.2
        dsimp only
        omega
      · dsimp only
        omega
    | exn =>
      simp only [qwenGo, ho]
      split
      · rename_i hcond
        have := ih (attempt + 1) hcond
        dsimp only
        omega
      · dsimp only
        omega

theorem qwenGo_delays_eq (text : String) (o : Nat → ApiResult) :
    ∀ (rem attempt : Nat),
      (qwenGo text o attempt rem).2.2 =
        (List.range ((qwenGo text o attempt rem).2.1 - attempt - 1)).map
          (fun i => 2 ^ (attempt + i) * 3000) := by
  intro rem
  induction rem with
  | zero =>
    intro attempt
    simp [qwenGo]
  | succ rem ih =>
    intro attempt
    cases ho : o attempt with
    | ok s =>
      simp only [qwenGo, ho]
      have h0 : attempt + 1 - attempt - 1 = 0 := by omega
      rw [h0]
      simp
    | badFormat =>
      simp only [qwenGo, ho]
      have h0 : attempt + 1 - attempt - 1 = 0 := by omega
      rw [h0]
      simp
    | httpError status =>
      simp only [qwenGo, ho]
      split
      · rename_i hcond
        simp only [Bool.and_eq_true, decide_eq_true_eq] at hcond
        have hgt := qwenGo_used_gt text o rem (attempt + 1) hcond.2
        have hdel := ih (attempt + 1)
        dsimp only
        rw [hdel]
        have hk : (qwenGo text o (attempt + 1) rem).2.1 - attempt - 1 =
            ((qwenGo text o (attempt + 1) rem).2.1 - attempt - 2) + 1 := by omega
        rw [hk, List.range_succ_eq_map, List.map_cons, List.map_map]
        have harg : (qwenGo text o (attempt + 1) rem).2.1 - (attempt + 1) - 1 =
            (qwenGo text o (attempt + 1) rem).2.1 - attempt - 2 := by omega
        rw [harg]
        refine congrArg (fun z => 2 ^ (attempt + 0) * 3000 :: z) ?_
        refine List.map_congr_left ?_
        intro i _
        simp only [Function.comp, Nat.succ_eq_add_one]
        have he : attempt + (i + 1) = attempt + 1 + i := by omega
        rw [he]
      · dsimp only
        have h0 : attempt + 1 - attempt - 1 = 0 := by omega
        rw [h0]
        simp
    | exn =>
      simp only [qwenGo, ho]
      split
      · rename_i hcond
        have hgt := qwenGo_used_gt text o rem (attempt + 1) hcond
        have hdel := ih (attempt + 1)
        dsimp only
        rw [hdel]
        have hk : (qwenGo text o (attempt + 1) rem).2.1 - attempt - 1 =
            ((qwenGo text o (attempt + 1) rem).2.1 - attempt - 2) + 1 := by omega
        rw [hk, List.range_succ_eq_map, List.map_cons, List.map_map]
        have harg : (qwenGo text o (attempt + 1) rem).2.1 - (attempt + 1) - 1 =
            (qwenGo text o (attempt + 1) rem).2.1 - attempt - 2 := by omega
        rw [harg]
        refine congrArg (fun z => 2 ^ (attempt + 0) * 3000 :: z) ?_
        refine List.map_congr_left ?_
        intro i _
        simp only [Function.comp, Nat.succ_eq_add_one]
        have he : attempt + (i + 1) = attempt + 1 + i := by omega
        rw [he]
      · dsimp only
        have h0 : attempt + 1 - attempt - 1 = 0 := by omega
        rw [h0]
        simp

theorem qwenGo_result (text : String) (o : Nat → ApiResult) :
    ∀ (rem attempt : Nat),
      (qwenGo text o attempt rem).1 = truncatedSummary text ∨
      o ((qwenGo text o attempt rem).2.1 - 1) = ApiResult.ok (qwenGo text o attempt rem).1 := by
  intro rem
  induction rem with
  | zero => intro attempt; left; simp [qwenGo]
  | succ rem ih =>
    intro attempt
    cases ho : o attempt with
    | ok s =>
      right
      simp only [qwenGo, ho]
      simpa using ho
    | badFormat =>
      left
      simp [qwenGo, ho]
    | httpError status =>
      simp only [qwenGo, ho]
      split
      · simpa using ih (attempt + 1)
      · left; simp
    | exn =>
      simp only [qwenGo, ho]
      split
      · simpa using ih (attempt + 1)
      · left; simp

theorem retryAllGo_used_le (text : String) (o : Nat → ApiResult) :
    ∀ (rem attempt : Nat), (retryAllGo text o attempt rem).2.1 ≤ attempt + rem := by
  intro rem
  induction rem with
  | zero => intro attempt; simp [retryAllGo]
  | succ rem ih =>
    intro attempt
    cases ho : o attempt with
    | ok s =>
      simp only [retryAllGo, ho]
      omega
    | badFormat =>
      simp only [retryAllGo, ho]
      split
      · have := ih (attempt + 1)
        dsimp only
        omega
      · dsimp only
        omega
    | httpError status =>
      simp only [retryAllGo, ho]
      split
      · have := ih (attempt + 1)
        dsimp only
        omega
      · dsimp only
        omega
    | exn =>
      simp only [retryAllGo, ho]
      split
      · have := ih (attempt + 1)
        dsimp only
        omega
      · dsimp only
        omega

theorem retryAllGo_used_gt (text : String) (o : Nat → ApiResult) :
    ∀ (rem attempt : Nat), 0 < rem → attempt < (retryAllGo text o attempt rem).2.1 := by
  intro rem
  induction rem with
  | zero => intro attempt h; omega
  | succ rem ih =>
    intro attempt _
    cases ho : o attempt with
    | ok s =>
      simp only [retryAllGo, ho]
      omega
    | badFormat =>
      simp only [retryAllGo, ho]
      split
      · rename_i hcond
        have := ih (attempt + 1) hcond
        dsimp only
        omega
      · dsimp only
        omega
    | httpError status =>
      simp only [retryAllGo, ho]
      split
      · rename_i hcond
        have := ih (attempt + 1) hcond
        dsimp only
        omega
      · dsimp only
        omega
    | exn =>
      simp only [retryAllGo, ho]
      split
      · rename_i hcond
        have := ih (attempt + 1) hcond
        dsimp only
        omega
      · dsimp only
        omega

theorem retryAllGo_delays_eq (text : String) (o : Nat → ApiResult) :
    ∀ (rem attempt : Nat),
      (retryAllGo text o attempt rem).2.2 =
        (List.range ((retryAllGo text o attempt rem).2.1 - attempt - 1)).map
          (fun i => 2 ^ (attempt + i) * 3000) := by
  intro rem
  induction rem with
  | zero =>
    intro attempt
    simp [retryAllGo]
  | succ rem ih =>
    intro attempt
    cases ho : o attempt with
    | ok s =>
      simp only [retryAllGo, ho]
      have h0 : attempt + 1 - attempt - 1 = 0 := by omega
      rw [h0]
      simp
    | badFormat =>
      simp only [retryAllGo, ho]
      split
      · rename_i hcond
        have hgt := retryAllGo_used_gt text o rem (attempt + 1) hcond
        have hdel := ih (attempt + 1)
        dsimp only
        rw [hdel]
        have hk : (retryAllGo text o (attempt + 1) rem).2.1 - attempt - 1 =
            ((retryAllGo text o (attempt + 1) rem).2.1 - attempt - 2) + 1 := by omega
        rw [hk, List.range_succ_eq_map, List.map_cons, List.map_map]
        have harg : (retryAllGo text o (attempt + 1) rem).2.1 - (attempt + 1) - 1 =
            (retryAllGo text o (attempt + 1) rem).2.1 - attempt - 2 := by omega
        rw [harg]
        refine congrArg (fun z => 2 ^ (attempt + 0) * 3000 :: z) ?_
        refine List.map_congr_left ?_
        intro i _
        simp only [Function.comp, Nat.succ_eq_add_one]
        have he : attempt + (i + 1) = attempt + 1 + i := by omega
        rw [he]
      · dsimp only
        have h0 : attempt + 1 - attempt - 1 = 0 := by omega
        rw [h0]
        simp
    | httpError status =>
      simp only [retryAllGo, ho]
      split
      · rename_i hcond
        have hgt := retryAllGo_used_gt text o rem (attempt + 1) hcond
        have hdel := ih (attempt + 1)
        dsimp only
        rw [hdel]
        have hk : (retryAllGo text o (attempt + 1) rem).2.1 - attempt - 1 =
            ((retryAllGo text o (attempt + 1) rem).2.1 - attempt - 2) + 1 := by omega
        rw [hk, List.range_succ_eq_map, List.map_cons, List.map_map]
        have harg : (retryAllGo text o (attempt + 1) rem).2.1 - (attempt + 1) - 1 =
            (retryAllGo text o (attempt + 1) rem).2.1 - attempt - 2 := by omega
        rw [harg]
        refine congrArg (fun z => 2 ^ (attempt + 0) * 3000 :: z) ?_
        refine List.map_congr_left ?_
        intro i _
        simp only [Function.comp, Nat.succ_eq_add_one]
        have he : attempt + (i + 1) = attempt + 1 + i := by omega
        rw [he]
      · dsimp only
        have h0 : attempt + 1 - attempt - 1 = 0 := by omega
        rw [h0]
        simp
    | exn =>
      simp only [retryAllGo, ho]
      split
      · rename_i hcond
        have hgt := retryAllGo_used_gt text o rem (attempt + 1) hcond
        have hdel := ih (attempt + 1)
        dsimp only
        rw [hdel]
        have hk : (retryAllGo text o (attempt + 1) rem).2.1 - attempt - 1 =
            ((retryAllGo text o (attempt + 1) rem).2.1 - attempt - 2) + 1 := by omega
        rw [hk, List.range_succ_eq_map, List.map_cons, List.map_map]
        have harg : (retryAllGo text o (attempt + 1) rem).2.1 - (attempt + 1) - 1 =
            (retryAllGo text o (attempt + 1) rem).2.1 - attempt - 2 := by omega
        rw [harg]
        refine congrArg (fun z => 2 ^ (attempt + 0) * 3000 :: z) ?_
        refine List.map_congr_left ?_
        intro i _
        simp only [Function.comp, Nat.succ_eq_add_one]
        have he : attempt + (i + 1) = attempt + 1 + i := by omega
        rw [he]
      · dsimp only
        have h0 : attempt + 1 - attempt - 1 = 0 := by omega
        rw [h0]
        simp

theorem retryAllGo_result (text : String) (o : Nat → ApiResult) :
    ∀ (rem attempt : Nat),
      (retryAllGo text o attempt rem).1 = truncatedSummary text ∨
      o ((retryAllGo text o attempt rem).2.1 - 1) =
        ApiResult.ok (retryAllGo text o attempt rem).1 := by
  intro rem
  induction rem with
  | zero => intro attempt; left; simp [retryAllGo]
  | succ rem ih =>
    intro attempt
    cases ho : o attempt with
    | ok s =>
      right
      simp only [retryAllGo, ho]
      simpa using ho
    | badFormat =>
      simp only [retryAllGo, ho]
      split
      · simpa using ih (attempt + 1)
      · left; simp
    | httpError status =>
      simp only [retryAllGo, ho]
      split
      · simpa using ih (attempt + 1)
      · left; simp
    | exn =>
      simp only [retryAllGo, ho]
      split
      · simpa using ih (attempt + 1)
      · left; simp

theorem doubao_unfold (text : String) (o : Nat → ApiResult) :
    generateSummaryWithDoubao true text o = retryAllGo text o 0 3 := rfl

theorem deepseek_unfold (text : String) (o : Nat → ApiResult) :
    generateSummaryWithDeepSeek true text o = retryAllGo text o 0 3 := rfl

theorem qwen_unfold (text : String) (o : Nat → ApiResult) (h : isChinese text = false) :
    generateSummaryWithQwen true text o = qwenGo text o 0 3 := by
  simp [generateSummaryWithQwen, h, retries]

theorem qwen_nonretryable_fallback (text : String) (o : Nat → ApiResult) (s : Nat)
    (hc : isChinese text = false) (h0 : o 0 = ApiResult.httpError s)
    (h429 : s ≠ 429) (h503 : s ≠ 503) :
    generateSummaryWithQwen true text o = (truncatedSummary text, 1, []) := by
  rw [qwen_unfold text o hc, show (3 : Nat) = 2 + 1 from rfl]
  have h1 : (s == 429) = false := by simpa using h429
  have h2 : (s == 503) = false := by simpa using h503
  simp [qwenGo, h0, h1, h2]

theorem qwen_badFormat_fallback (text : String) (o : Nat → ApiResult)
    (hc : isChinese text = false) (h0 : o 0 = ApiResult.badFormat) :
    generateSummaryWithQwen true text o = (truncatedSummary text, 1, []) := by
  rw [qwen_unfold text o hc, show (3 : Nat) = 2 + 1 from rfl]
  simp [qwenGo, h0]

theorem retryAllGo_fail_first (text : String) (o : Nat → ApiResult)
    (attempt rem : Nat) (hrem : 0 < rem) (h : ∀ s, o attempt ≠ ApiResult.ok s) :
    attempt + 1 < (retryAllGo text o attempt (rem + 1)).2.1 := by
  have hgt := retryAllGo_used_gt text o rem (attempt + 1) hrem
  cases ho : o attempt with
  | ok s => exact absurd ho (h s)
  | badFormat =>
    simp only [retryAllGo, ho]
    rw [if_pos hrem]
    dsimp only
    omega
  | httpError status =>
    simp only [retryAllGo, ho]
    rw [if_pos hrem]
    dsimp only
    omega
  | exn =>
    simp only [retryAllGo, ho]
    rw [if_pos hrem]
    dsimp only
    omega

theorem retryAll_retries_on_any_failure (text : String) (o : Nat → ApiResult)
    (h : ∀ s, o 0 ≠ ApiResult.ok s) : 2 ≤ (retryAllGo text o 0 3).2.1 := by
  rw [show (3 : Nat) = 2 + 1 from rfl]
  have := retryAllGo_fail_first text o 0 2 (by omega) h
  omega

theorem qwenGo_429_first (text : String) (o : Nat → ApiResult)
    (attempt rem : Nat) (hrem : 0 < rem) (h0 : o attempt = ApiResult.httpError 429) :
    attempt + 1 < (qwenGo text o attempt (rem + 1)).2.1 := by
  have hgt := qwenGo_used_gt text o rem (attempt + 1) hrem
  have hcond : (((429 : Nat) == 429 || (429 : Nat) == 503) && decide (rem > 0)) = true := by
    simp [hrem]
  simp only [qwenGo, h0]
  rw [if_pos hcond]
  dsimp only
  omega

theorem qwen_retries_on_429 (text : String) (o : Nat → ApiResult)
    (hc : isChinese text = false) (h0 : o 0 = ApiResult.httpError 429) :
    2 ≤ (generateSummaryWithQwen true text o).2.1 := by
  rw [qwen_unfold text o hc, show (3 : Nat) = 2 + 1 from rfl]
  have := qwenGo_429_first text o 0 2 (by omega) h0
  omega

theorem retryAll_exhaust (text : String) (o : Nat → ApiResult)
    (h : ∀ n s, o n ≠ ApiResult.ok s) :
    (retryAllGo text o 0 3).1 = truncatedSummary text := by
  rcases retryAllGo_result text o 3 0 with hr | hr
  · exact hr
  · exact absurd hr (h _ _)

theorem qwenGo_exhaust (text : String) (o : Nat → ApiResult)
    (h : ∀ n s, o n ≠ ApiResult.ok s) :
    (qwenGo text o 0 3).1 = truncatedSummary text := by
  rcases qwenGo_result text o 3 0 with hr | hr
  · exact hr
  · exact absurd hr (h _ _)

/-- C6 counterexample: in generateSummaryWithDoubao a 500 response — neither
429 nor 503 — on the first attempt does not return the fallback; it is
retried (two attempts are consumed, with the 3-second backoff), and the
second attempt's summary is returned, contradicting the claim that a retry is
triggered only by 429 or 503 and that any other non-success response returns
the fallback. -/
theorem C6_counterexample :
    generateSummaryWithDoubao true "The new alloy improves strength"
        (fun n => if n = 0 then ApiResult.httpError 500 else ApiResult.ok "摘要") =
      ("摘要", 2, [3000]) ∧
    (500 ≠ 429 ∧ 500 ≠ 503) ∧
    "摘要" ≠ truncatedSummary "The new alloy improves strength" := by
  decide

/-- C6 amended: for every provider call, at most 3 attempts are made; the
delay before the n-th retry is 3 * 2 ^ (n - 1) seconds; the call never raises
and returns either an attempt's summary or the 150-character truncation
fallback, which is also returned after exhausting all attempts; in
generateSummaryWithQwen a non-success status other than 429/503, or a
malformed body, falls back immediately with no retry, while in
generateSummaryWithDoubao and generateSummaryWithDeepSeek any failed first
attempt is retried while attempts remain; 429 also triggers a retry in the
Qwen variant. -/
theorem C6_retry_policy_amended :
    (∀ (key : Bool) (text : String) (o : Nat → ApiResult),
      (generateSummaryWithDoubao key text o).2.1 ≤ 3 ∧
      (generateSummaryWithDeepSeek key text o).2.1 ≤ 3 ∧
      (generateSummaryWithQwen key text o).2.1 ≤ 3) ∧
    (∀ (key : Bool) (text : String) (o : Nat → ApiResult),
      (generateSummaryWithDoubao key text o).2.2 =
        (List.range ((generateSummaryWithDoubao key text o).2.1 - 1)).map
          (fun i => 2 ^ i * 3000) ∧
      (generateSummaryWithDeepSeek key text o).2.2 =
        (List.range ((generateSummaryWithDeepSeek key text o).2.1 - 1)).map
          (fun i => 2 ^ i * 3000) ∧
      (generateSummaryWithQwen key text o).2.2 =
        (List.range ((generateSummaryWithQwen key text o).2.1 - 1)).map
          (fun i => 2 ^ i * 3000)) ∧
    (∀ (key : Bool) (text : String) (o : Nat → ApiResult),
      ((generateSummaryWithDoubao key text o).1 = truncatedSummary text ∨
        o ((generateSummaryWithDoubao key text o).2.1 - 1) =
          ApiResult.ok (generateSummaryWithDoubao key text o).1) ∧
      ((generateSummaryWithDeepSeek key text o).1 = truncatedSummary text ∨
        o ((generateSummaryWithDeepSeek key text o).2.1 - 1) =
          ApiResult.ok (generateSummaryWithDeepSeek key text o).1) ∧
      ((generateSummaryWithQwen key text o).1 = truncatedSummary text ∨
        o ((generateSummaryWithQwen key text o).2.1 - 1) =
          ApiResult.ok (generateSummaryWithQwen key text o).1)) ∧
    (∀ (text : String) (o : Nat → ApiResult) (s : Nat),
      isChinese text = false → o 0 = ApiResult.httpError s → s ≠ 429 → s ≠ 503 →
      generateSummaryWithQwen true text o = (truncatedSummary text, 1, [])) ∧
    (∀ (text : String) (o : Nat → ApiResult),
      isChinese text = false → o 0 = ApiResult.badFormat →
      generateSummaryWithQwen true text o = (truncatedSummary text, 1, [])) ∧
    (∀ (text : String) (o : Nat → ApiResult),
      (∀ s, o 0 ≠ ApiResult.ok s) →
      2 ≤ (generateSummaryWithDoubao true text o).2.1 ∧
      2 ≤ (generateSummaryWithDeepSeek true text o).2.1) ∧
    (∀ (text : String) (o : Nat → ApiResult),
      isChinese text = false → o 0 = ApiResult.httpError 429 →
      2 ≤ (generateSummaryWithQwen true text o).2.1) ∧
    (∀ (key : Bool) (text : String) (o : Nat → ApiResult),
      (∀ n s, o n ≠ ApiResult.ok s) →
      (generateSummaryWithDoubao key text o).1 = truncatedSummary text ∧
      (generateSummaryWithDeepSeek key text o).1 = truncatedSummary text ∧
      (generateSummaryWithQwen key text o).1 = truncatedSummary text) := by
  have hshift : ∀ k : Nat, (List.range k).map (fun i => 2 ^ (0 + i) * 3000) =
      (List.range k).map (fun i => 2 ^ i * 3000) :=
    fun k => List.map_congr_left (fun i _ => by rw [Nat.zero_add])
  refine ⟨?_, ?_, ?_, qwen_nonretryable_fallback, qwen_badFormat_fallback, ?_, ?_, ?_⟩
  · intro key text o
    refine ⟨?_, ?_, ?_⟩
    · cases key with
      | false => simp [generateSummaryWithDoubao]
      | true =>
        rw [doubao_unfold]
        simpa using retryAllGo_used_le text o 3 0
    · cases key with
      | false => simp [generateSummaryWithDeepSeek]
      | true =>
        rw [deepseek_unfold]
        simpa using retryAllGo_used_le text o 3 0
    · cases key with
      | false => simp [generateSummaryWithQwen]
      | true =>
        by_cases hc : isChinese text
        · simp [generateSummaryWithQwen, hc]
        · rw [qwen_unfold text o (by simpa using hc)]
          simpa using qwenGo_used_le text o 3 0
  · intro key text o
    refine ⟨?_, ?_, ?_⟩
    · cases key with
      | false => simp [generateSummaryWithDoubao]
      | true =>
        rw [doubao_unfold]
        rw [retryAllGo_delays_eq text o 3 0]
        rw [show (retryAllGo text o 0 3).2.1 - 0 - 1 = (retryAllGo text o 0 3).2.1 - 1
          from by omega]
        exact hshift _
    · cases key with
      | false => simp [generateSummaryWithDeepSeek]
      | true =>
        rw [deepseek_unfold]
        rw [retryAllGo_delays_eq text o 3 0]
        rw [show (retryAllGo text o 0 3).2.1 - 0 - 1 = (retryAllGo text o 0 3).2.1 - 1
          from by omega]
        exact hshift _
    · cases key with
      | false => simp [generateSummaryWithQwen]
      | true =>
        by_cases hc : isChinese text
        · simp [generateSummaryWithQwen, hc]
        · rw [qwen_unfold text o (by simpa using hc)]
          rw [qwenGo_delays_eq text o 3 0]
          rw [show (qwenGo text o 0 3).2.1 - 0 - 1 = (qwenGo text o 0 3).2.1 - 1
            from by omega]
          exact hshift _
  · intro key text o
    refine ⟨?_, ?_, ?_⟩
    · cases key with
      | false => left; simp [generateSummaryWithDoubao]
      | true =>
        rw [doubao_unfold]
        exact retryAllGo_result text o 3 0
    · cases key with
      | false => left; simp [generateSummaryWithDeepSeek]
      | true =>
        rw [deepseek_unfold]
        exact retryAllGo_result text o 3 0
    · cases key with
      | false => left; simp [generateSummaryWithQwen]
      | true =>
        by_cases hc : isChinese text
        · left; simp [generateSummaryWithQwen, hc]
        · rw [qwen_unfold text o (by simpa using hc)]
          exact qwenGo_result text o 3 0
  · intro text o h
    constructor
    · rw [doubao_unfold]
      exact retryAll_retries_on_any_failure text o h
    · rw [deepseek_unfold]
      exact retryAll_retries_on_any_failure text o h
  · exact qwen_retries_on_429
  · intro key text o h
    refine ⟨?_, ?_, ?_⟩
    · cases key with
      | false => simp [generateSummaryWithDoubao]
      | true =>
        rw [doubao_unfold]
        exact retryAll_exhaust text o h
    · cases key with
      | false => simp [generateSummaryWithDeepSeek]
      | true =>
        rw [deepseek_unfold]
        exact retryAll_exhaust text o h
    · cases key with
      | false => simp [generateSummaryWithQwen]
      | true =>
        by_cases hc : isChinese text
        · simp [generateSummaryWithQwen, hc]
        · rw [qwen_unfold text o (by simpa using hc)]
          exact qwenGo_exhaust text o h

/-- Witness for the amended C6 at concrete outcome sequences. -/
theorem C6_witness :
    generateSummaryWithQwen true "alloy news" (fun _ => ApiResult.httpError 500) =
      (truncatedSummary "alloy news", 1, []) ∧
    2 ≤ (generateSummaryWithDoubao true "alloy news"
      (fun _ => ApiResult.httpError 500)).2.1 ∧
    (generateSummaryWithDoubao true "alloy news"
      (fun _ => ApiResult.httpError 500)).1 = truncatedSummary "alloy news" :=
  ⟨(C6_retry_policy_amended.2.2.2.1) "alloy news" (fun _ => ApiResult.httpError 500) 500
      (by decide) rfl (by decide) (by decide),
   ((C6_retry_policy_amended.2.2.2.2.2.1) "alloy news" (fun _ => ApiResult.httpError 500)
      (fun s h => by simp at h)).1,
   ((C6_retry_policy_amended.2.2.2.2.2.2.2) true "alloy news"
      (fun _ => ApiResult.httpError 500) (fun n s h => by simp at h)).1⟩

theorem byRelevanceDesc_trans :
    ∀ a b c : Article, byRelevanceDesc a b → byRelevanceDesc b c → byRelevanceDesc a c := by
  intro a b c h1 h2
  simp only [byRelevanceDesc, decide_eq_true_eq] at *
  omega

theorem byRelevanceDesc_total : ∀ a b : Article, byRelevanceDesc a b || byRelevanceDesc b a := by
  intro a b
  simp only [byRelevanceDesc, Bool.or_eq_true, decide_eq_true_eq]
  omega

theorem categoryQuotaPicks_category (pool : List Article) (used : List String)
    (c : String) : ∀ x ∈ categoryQuotaPicks pool used c, x.category = c := by
  intro x hx
  unfold categoryQuotaPicks at hx
  have h1 := List.mem_of_mem_take hx
  rw [List.mem_mergeSort] at h1
  have h2 := (List.mem_filter.1 h1).2
  simp only [Bool.and_eq_true, beq_iff_eq] at h2
  exact h2.1

theorem categoryQuotaPicks_sorted (pool : List Article) (used : List String)
    (c : String) : (categoryQuotaPicks pool used c).Pairwise
      (fun a b => b.relevanceScore ≤ a.relevanceScore) := by
  simp only [categoryQuotaPicks]
  have hs := List.sorted_mergeSort byRelevanceDesc_trans byRelevanceDesc_total
    (pool.filter (fun a => a.category == c && !(used.contains a.link)))
  exact hs.take.imp (fun h => by simpa [byRelevanceDesc] using h)

theorem categoryQuotaPicks_dominates (pool : List Article) (used : List String)
    (c : String) :
    ∀ x ∈ categoryQuotaPicks pool used c,
    ∀ y ∈ ((pool.filter (fun a => a.category == c && !(used.contains a.link))).mergeSort
        byRelevanceDesc).drop MIN_PER_CATEGORY,
      y.relevanceScore ≤ x.relevanceScore := by
  intro x hx y hy
  have hs := List.sorted_mergeSort byRelevanceDesc_trans byRelevanceDesc_total
    (pool.filter (fun a => a.category == c && !(used.contains a.link)))
  have hsplit := List.take_append_drop MIN_PER_CATEGORY
    ((pool.filter (fun a => a.category == c && !(used.contains a.link))).mergeSort
      byRelevanceDesc)
  rw [← hsplit, List.pairwise_append] at hs
  have hx3 : x ∈ ((pool.filter (fun a => a.category == c && !(used.contains a.link))).mergeSort
      byRelevanceDesc).take MIN_PER_CATEGORY := by
    unfold categoryQuotaPicks at hx
    have heq : ((pool.filter (fun a => a.category == c && !(used.contains a.link))).mergeSort
        byRelevanceDesc).take (min MIN_PER_CATEGORY
          ((pool.filter (fun a => a.category == c && !(used.contains a.link))).mergeSort
            byRelevanceDesc).length) =
        ((pool.filter (fun a => a.category == c && !(used.contains a.link))).mergeSort
          byRelevanceDesc).take MIN_PER_CATEGORY := by
      rw [← List.take_take, List.take_length]
    rw [heq] at hx
    exact hx
  have := hs.2.2 x hx3 y hy
  simpa [byRelevanceDesc] using this

theorem phase1Go_count_ge (pool : List Article)
    (hnd : (pool.map (fun a => a.link)).Nodup) (c : String) :
    ∀ (names used : List String), c ∈ names →
      (∀ lnk ∈ used, ∀ a ∈ pool, a.link = lnk → a.category ≠ c) →
      min MIN_PER_CATEGORY (pool.countP (fun a => a.category == c)) ≤
        (phase1Go pool used names).countP (fun a => a.category == c) := by
  intro names
  induction names with
  | nil =>
    intro used hc _
    exact absurd hc (List.not_mem_nil c)
  | cons n rest ih =>
    intro used hc hused
    simp only [phase1Go, List.countP_append]
    by_cases hcn : c = n
    · subst hcn
      have hfilter : pool.filter (fun a => a.category == c && !(used.contains a.link)) =
          pool.filter (fun a => a.category == c) := by
        refine List.filter_congr ?_
        intro a ha
        by_cases hac : a.category = c
        · have hl : a.link ∉ used := by
            intro hmem
            exact hused a.link hmem a ha rfl hac
          simp [hac, hl]
        · simp [hac]
      have hlen : ((pool.filter (fun a => a.category == c &&
          !(used.contains a.link))).mergeSort byRelevanceDesc).length =
          pool.countP (fun a => a.category == c) := by
        rw [List.length_mergeSort, hfilter, ← List.countP_eq_length_filter]
      have hpicklen : (categoryQuotaPicks pool used c).length =
          min MIN_PER_CATEGORY ((pool.filter (fun a => a.category == c &&
            !(used.contains a.link))).mergeSort byRelevanceDesc).length := by
        unfold categoryQuotaPicks
        rw [List.length_take]
        omega
      have hcount_picks : (categoryQuotaPicks pool used c).countP
          (fun a => a.category == c) = (categoryQuotaPicks pool used c).length := by
        rw [List.countP_eq_length]
        intro x hx
        simpa using categoryQuotaPicks_category pool used c x hx
      rw [hcount_picks, hpicklen, hlen]
      omega
    · have hcrest : c ∈ rest := by
        rcases List.mem_cons.1 hc with h | h
        · exact absurd h hcn
        · exact h
      have husedq : ∀ lnk ∈ used ++ (categoryQuotaPicks pool used n).map (fun a => a.link),
          ∀ a ∈ pool, a.link = lnk → a.category ≠ c := by
        intro lnk hlnk a ha halink
        rw [List.mem_append] at hlnk
        rcases hlnk with h | h
        · exact hused lnk h a ha halink
        · rcases List.mem_map.1 h with ⟨b, hb, hblink⟩
          have hbpool : b ∈ pool := mem_of_mem_categoryQuotaPicks _ _ _ _ hb
          have hbcat : b.category = n := categoryQuotaPicks_category _ _ _ b hb
          have hab : a = b :=
            List.inj_on_of_nodup_map hnd ha hbpool (by rw [halink, hblink])
          rw [hab, hbcat]
          exact fun hnc => hcn hnc.symm
      have hrec := ih _ hcrest husedq
      omega

theorem selectWithQuota_count_ge (pool : List Article)
    (hnd : (pool.map (fun a => a.link)).Nodup) (c : String) (hc : c ∈ categoryNames) :
    min MIN_PER_CATEGORY (pool.countP (fun a => a.category == c)) ≤
      (selectWithQuota pool).countP (fun a => a.category == c) := by
  have h1 := phase1Go_count_ge pool hnd c categoryNames [] hc (by intro lnk h; simp at h)
  simp only [selectWithQuota, List.countP_append]
  omega

/-- C4: with pairwise distinct links, every configured category with at least
3 candidates in the pool keeps at least 3 articles in the selection (and a
category with fewer keeps all of them); each phase 1 round picks articles of
its own category in descending relevanceScore order, dominating the rejected
candidates of that round; and no phase 2 article reuses a phase 1 link. -/
theorem C4_category_minimum (pool : List Article)
    (hnd : (pool.map (fun a => a.link)).Nodup) (c : String) (hc : c ∈ categoryNames) :
    (3 ≤ pool.countP (fun a => a.category == c) →
      3 ≤ (selectWithQuota pool).countP (fun a => a.category == c)) ∧
    min MIN_PER_CATEGORY (pool.countP (fun a => a.category == c)) ≤
      (selectWithQuota pool).countP (fun a => a.category == c) ∧
    (∀ used : List String,
      (categoryQuotaPicks pool used c).Pairwise
        (fun a b => b.relevanceScore ≤ a.relevanceScore) ∧
      (∀ x ∈ categoryQuotaPicks pool used c, x.category = c) ∧
      (∀ x ∈ categoryQuotaPicks pool used c,
        ∀ y ∈ ((pool.filter (fun a => a.category == c &&
            !(used.contains a.link))).mergeSort byRelevanceDesc).drop MIN_PER_CATEGORY,
          y.relevanceScore ≤ x.relevanceScore)) ∧
    (∀ x ∈ phase2Of pool, x.link ∉ (phase1Go pool [] categoryNames).map (fun a => a.link)) := by
  refine ⟨?_, selectWithQuota_count_ge pool hnd c hc, ?_, ?_⟩
  · intro h3
    have := selectWithQuota_count_ge pool hnd c hc
    have hmin : min MIN_PER_CATEGORY (pool.countP (fun a => a.category == c)) = 3 := by
      simp only [MIN_PER_CATEGORY]
      omega
    omega
  · intro used
    exact ⟨categoryQuotaPicks_sorted pool used c, categoryQuotaPicks_category pool used c,
      categoryQuotaPicks_dominates pool used c⟩
  · intro x hx
    unfold phase2Of at hx
    have h1 := List.mem_of_mem_take hx
    have h2 := (List.mem_filter.1 h1).2
    simpa using h2

/-- Concrete selection pool: three categorized articles of one category with
distinct links. -/
def demoQuotaPool : List Article :=
  [{ mkArticle "steel one" "https://l1" 0 "" with category := "材料创新", relevanceScore := 30 },
   { mkArticle "steel two" "https://l2" 1 "" with category := "材料创新", relevanceScore := 20 },
   { mkArticle "steel three" "https://l3" 2 "" with category := "材料创新", relevanceScore := 10 }]

/-- Witness for C4 on the concrete pool. -/
theorem C4_witness :
    3 ≤ (selectWithQuota demoQuotaPool).countP (fun a => a.category == "材料创新") :=
  (C4_category_minimum demoQuotaPool (by decide) "材料创新" (by decide)).1 (by decide)

theorem byFinalScoreDesc_trans :
    ∀ a b c : Article, byFinalScoreDesc a b → byFinalScoreDesc b c → byFinalScoreDesc a c := by
  intro a b c h1 h2
  simp only [byFinalScoreDesc, decide_eq_true_eq] at *
  exact le_trans h2 h1

theorem byFinalScoreDesc_total : ∀ a b : Article, byFinalScoreDesc a b || byFinalScoreDesc b a := by
  intro a b
  simp only [byFinalScoreDesc, Bool.or_eq_true, decide_eq_true_eq]
  exact le_total b.finalScore a.finalScore

theorem rank_sorted (cs : List Article) :
    (rank cs).Pairwise (fun a b => b.finalScore ≤ a.finalScore) := by
  have hs := List.sorted_mergeSort byFinalScoreDesc_trans byFinalScoreDesc_total
    (cs.map (rankScored cs))
  have hs2 : (rank cs).Pairwise (fun a b => byFinalScoreDesc a b = true) := hs
  exact hs2.imp (fun h => by simpa [byFinalScoreDesc] using h)

theorem phase2Of_sorted (cs : List Article) :
    (phase2Of (rank cs)).Pairwise (fun a b => b.finalScore ≤ a.finalScore) := by
  unfold phase2Of
  exact ((rank_sorted cs).filter _).take

theorem phase1Go_decompose (pool : List Article) :
    phase1Go pool [] categoryNames =
      quotaRound1 pool ++ (quotaRound2 pool ++ (quotaRound3 pool ++ [])) := rfl

theorem selectWithQuota_decompose (pool : List Article) :
    selectWithQuota pool = phase1Go pool [] categoryNames ++ phase2Of pool := rfl

/-- C10: the snapshot's articles array of the blended edition is the phase 1
quota picks grouped in configuration order of the categories — each group of
its own category and sorted by descending relevanceScore — followed by the
phase 2 articles in descending finalScore order; consequently the array is
not globally sorted by finalScore, as the concrete two-article run shows. -/
theorem C10_snapshot_order :
    (∀ cs : List Article,
      (buildSnapshot (selectWithQuota (rank cs))).articles =
        quotaRound1 (rank cs) ++ (quotaRound2 (rank cs) ++ (quotaRound3 (rank cs) ++ [])) ++
          phase2Of (rank cs) ∧
      (∀ x ∈ quotaRound1 (rank cs), x.category = "材料创新") ∧
      (∀ x ∈ quotaRound2 (rank cs), x.category = "汽车防腐") ∧
      (∀ x ∈ quotaRound3 (rank cs), x.category = "车内健康") ∧
      (quotaRound1 (rank cs)).Pairwise (fun a b => b.relevanceScore ≤ a.relevanceScore) ∧
      (quotaRound2 (rank cs)).Pairwise (fun a b => b.relevanceScore ≤ a.relevanceScore) ∧
      (quotaRound3 (rank cs)).Pairwise (fun a b => b.relevanceScore ≤ a.relevanceScore) ∧
      (phase2Of (rank cs)).Pairwise (fun a b => b.finalScore ≤ a.finalScore)) ∧
    ¬ ((buildSnapshot (keywordPipeline [demoAluminum, demoCorrosion])).articles.Pairwise
        (fun a b => b.finalScore ≤ a.finalScore)) := by
  constructor
  · intro cs
    refine ⟨?_,
      fun x hx => categoryQuotaPicks_category _ _ _ x hx,
      fun x hx => categoryQuotaPicks_category _ _ _ x hx,
      fun x hx => categoryQuotaPicks_category _ _ _ x hx,
      categoryQuotaPicks_sorted _ _ _,
      categoryQuotaPicks_sorted _ _ _,
      categoryQuotaPicks_sorted _ _ _,
      phase2Of_sorted cs⟩
    show selectWithQuota (rank cs) = _
    rw [selectWithQuota_decompose, phase1Go_decompose]
  · decide!

/-- Witness for C10: the decomposition instantiated on the concrete run, plus
the category of the sole first-round pick. -/
theorem C10_witness :
    (buildSnapshot (selectWithQuota (rank [demoAluminumCategorized,
        demoCorrosionCategorized]))).articles =
      quotaRound1 (rank [demoAluminumCategorized, demoCorrosionCategorized]) ++
        (quotaRound2 (rank [demoAluminumCategorized, demoCorrosionCategorized]) ++
          (quotaRound3 (rank [demoAluminumCategorized, demoCorrosionCategorized]) ++ [])) ++
        phase2Of (rank [demoAluminumCategorized, demoCorrosionCategorized]) ∧
    demoAluminumRanked.category = "材料创新" :=
  ⟨((C10_snapshot_order.1 [demoAluminumCategorized, demoCorrosionCategorized]).1),
   ((C10_snapshot_order.1 [demoAluminumCategorized, demoCorrosionCategorized]).2.1)
     demoAluminumRanked (by decide!)⟩

end LiMat
